import Mathlib

/-!
Verification development for the BRACU announcement bot
(`src/notice-embed.js`, the current RSS-based variant).

The JavaScript core is embedded shallowly:

* An announcement candidate produced by `fetchAnnouncements` becomes
  `Announcement`; a persisted entry of the JSON database file becomes
  `PostedRecord`.
* The durable state file is modelled by `Option FileContent`: `none` is
  "file absent"; `FileContent.json rs` is the file holding
  `JSON.stringify(rs, null, 2)` (the serializer is injective on record
  lists, so byte-for-byte equality of valid files coincides with equality
  of `FileContent`); `FileContent.garbage s` is a file whose content `s`
  does not parse as JSON.
* Network nondeterminism is an oracle: for `postToDiscord`,
  `net tIdx attempt = none` means the webhook send to target `tIdx` on
  attempt number `attempt` succeeds, `some e` means it fails with error
  message `e`.  Real-time aspects (timeout durations, backoff sleeps,
  inter-target pauses, the 30-second race in `main`) have no logical
  content beyond attempt success/failure and are absorbed into the oracle.
* `runCycle` embeds one invocation of `main` (one reconciliation cycle):
  load the store, fetch the feed, iterate candidates from the last feed
  index down to 0, dispatch each unknown candidate, accumulate the
  confirmed ones, and save/sync.  Logging is not modelled.
-/

/-- A normalized feed candidate, as produced by `fetchAnnouncements`. -/
structure Announcement where
  id : String
  title : String
  pubDate : String
  link : String
deriving DecidableEq, Repr

/-- A persisted entry of the announcements database file. -/
structure PostedRecord where
  id : String
  title : String
  postedAt : String
deriving DecidableEq, Repr

/-- Per-target result pushed onto `results` inside `postToDiscord`. -/
structure DeliveryOutcome where
  success : Bool
  serverName : String
  error : Option String
deriving DecidableEq, Repr

/-- Content of the durable state file (`DB_FILE`).  `json rs` stands for
the bytes `JSON.stringify(rs, null, 2)`; `garbage s` stands for bytes `s`
that do not parse. -/
inductive FileContent where
  | json (records : List PostedRecord)
  | garbage (raw : String)
deriving DecidableEq, Repr

/-- `loadPosted` of `src/notice-embed.js` (lines 40-60): if the file
exists and parses, return its records and leave the disk alone; if it is
absent or `JSON.parse` throws, return `[]` and write an empty database
to disk.  Result: (returned records, disk state after the call). -/
def loadPosted : Option FileContent → List PostedRecord × Option FileContent
  | some (.json rs) => (rs, some (.json rs))
  | some (.garbage _) => ([], some (.json []))
  | none => ([], some (.json []))

/-- `savePosted` (lines 62-64): overwrite the file with the serialized
list. -/
def savePosted (posted : List PostedRecord) : Option FileContent :=
  some (.json posted)

/-- The per-target retry loop of `postToDiscord` (lines 126-184):
`for (let attempt = 1; attempt <= 3; attempt++)`.  `attempt` is the
current attempt number, `remaining` the number of attempts still
allowed, `lastError` the error of the most recent failed attempt.
Returns the outcome recorded for this target together with the number
of webhook-send attempts actually made. -/
def retryTarget (net : Nat → Nat → Option String) (tIdx : Nat) (name : String) :
    Nat → Nat → Option String → DeliveryOutcome × Nat
  | _, 0, lastError => (⟨false, name, lastError⟩, 0)
  | attempt, remaining + 1, _ =>
    match net tIdx attempt with
    | none => (⟨true, name, none⟩, 1)
    | some e =>
      let rest := retryTarget net tIdx name (attempt + 1) remaining (some e)
      (rest.1, rest.2 + 1)

/-- One target's processing in `postToDiscord`: up to 3 attempts starting
at attempt number 1 (line 126). -/
def tryTarget (net : Nat → Nat → Option String) (tIdx : Nat) (name : String) :
    DeliveryOutcome × Nat :=
  retryTarget net tIdx name 1 3 none

/-- The outer loop of `postToDiscord` over the configured webhooks
(lines 118-197): one outcome is pushed per target, in target order;
`k` is the index of the first target of `names`. -/
def dispatchFrom (net : Nat → Nat → Option String) : Nat → List String → List DeliveryOutcome
  | _, [] => []
  | k, name :: rest => (tryTarget net k name).1 :: dispatchFrom net (k + 1) rest

/-- `postToDiscord` (lines 67-209): run the per-target loop, then
(lines 204-206) throw iff the result list is non-empty and every entry
failed; otherwise return the result list. -/
def postToDiscord (net : Nat → Nat → Option String) (names : List String) :
    Except String (List DeliveryOutcome) :=
  let results := dispatchFrom net 0 names
  if !results.isEmpty && results.all (fun r => !r.success) then
    .error "Failed to post to all Discord webhooks after multiple retries"
  else
    .ok results

/-- What one candidate contributes to `successfulAnnouncements` in the
per-announcement body of `main` (lines 366-413): `none` when the id is
already known or delivery is not confirmed, `some record` when
`postToDiscord` reported at least one per-target success (line 382), in
which case `{id, title, postedAt}` is pushed (lines 395-399).
`postedAtOf ann` is the ambient `new Date().toISOString()` at the moment
`ann` is confirmed.  A thrown `postToDiscord` error is caught at
line 388 and yields `discordSuccess = false`. -/
def candRecord (targets : List String) (net : Announcement → Nat → Nat → Option String)
    (postedAtOf : Announcement → String) (postedIds : List String)
    (ann : Announcement) : Option PostedRecord :=
  if postedIds.contains ann.id then none
  else
    match postToDiscord (net ann) targets with
    | .ok results =>
      if results.any (fun r => r.success) then
        some ⟨ann.id, ann.title, postedAtOf ann⟩
      else none
    | .error _ => none

/-- The candidate loop of `main` (lines 366-414), applied to the list of
candidates in processing order (the code iterates
`for (let i = announcements.length-1; i >= 0; i--)`, i.e. over the
reversed feed list).  Returns the accumulated `successfulAnnouncements`
and the number of `postToDiscord` invocations made. -/
def processCandidates (targets : List String) (net : Announcement → Nat → Nat → Option String)
    (postedAtOf : Announcement → String) (postedIds : List String) :
    List Announcement → List PostedRecord × Nat
  | [] => ([], 0)
  | ann :: rest =>
    let tail := processCandidates targets net postedAtOf postedIds rest
    if postedIds.contains ann.id then tail
    else
      match candRecord targets net postedAtOf postedIds ann with
      | some rec => (rec :: tail.1, tail.2 + 1)
      | none => (tail.1, tail.2 + 1)

/-- Observable result of one reconciliation cycle (`main`):
final disk state, final in-memory `posted` list, number of
`postToDiscord` invocations, whether `savePosted` ran (line 422),
whether the time-gated `syncIfNeeded` check ran (line 433), and whether
the unconditional post-save `syncToGitHub` ran (line 426). -/
structure CycleResult where
  disk : Option FileContent
  posted : List PostedRecord
  dispatches : Nat
  saved : Bool
  syncIfNeededCalled : Bool
  syncAfterSave : Bool
deriving DecidableEq, Repr

/-- One invocation of `main` (lines 330-440).  `feed` is the result of
`fetchAnnouncements`: `Except.error ()` is a fetch failure (thrown at
line 242, caught by `main`'s outer catch at line 437).  Note
`loadPosted` runs (line 349) before the fetch (line 354).  The dead
`else if (newPosted)` branch (line 427) cannot run, since `newPosted`
is set `true` exactly when a record is pushed onto
`successfulAnnouncements`, so `newPosted = true` implies
`successfulAnnouncements.length > 0`. -/
def runCycle (targets : List String) (net : Announcement → Nat → Nat → Option String)
    (postedAtOf : Announcement → String)
    (feed : Except Unit (List Announcement)) (disk : Option FileContent) : CycleResult :=
  let ld := loadPosted disk
  let posted := ld.1
  let disk1 := ld.2
  match feed with
  | .error _ => ⟨disk1, posted, 0, false, false, false⟩
  | .ok announcements =>
    if announcements.isEmpty then
      ⟨disk1, posted, 0, false, false, false⟩
    else
      let postedIds := posted.map (fun a => a.id)
      let pc := processCandidates targets net postedAtOf postedIds announcements.reverse
      let successfulAnnouncements := pc.1
      if successfulAnnouncements.isEmpty then
        ⟨disk1, posted, pc.2, false, true, false⟩
      else
        let newPostedList := posted ++ successfulAnnouncements
        ⟨savePosted newPostedList, newPostedList, pc.2, true, false, true⟩

/-- Inputs that vary from cycle to cycle. -/
structure CycleInput where
  targets : List String
  net : Announcement → Nat → Nat → Option String
  postedAtOf : Announcement → String
  feed : Except Unit (List Announcement)

/-- A sequence of reconciliation cycles threaded through the disk. -/
def runCycles : List CycleInput → Option FileContent → Option FileContent
  | [], disk => disk
  | c :: rest, disk =>
    runCycles rest (runCycle c.targets c.net c.postedAtOf c.feed disk).disk

/-! ### Basic facts about the embedded definitions -/

/-- After any `loadPosted` call the file on disk holds exactly the
serialized form of the records the call returned. -/
theorem loadPosted_snd (disk : Option FileContent) :
    (loadPosted disk).2 = some (.json (loadPosted disk).1) := by
  match disk with
  | some (.json rs) => rfl
  | some (.garbage s) => rfl
  | none => rfl

/-- `Array`-free reading of the JS `Set.has` test: `contains` agrees
with membership. -/
theorem contains_true_iff (l : List String) (x : String) :
    l.contains x = true ↔ x ∈ l := List.elem_iff

/-- Negative reading of the JS `Set.has` test. -/
theorem contains_false_iff (l : List String) (x : String) :
    l.contains x = false ↔ x ∉ l := by
  constructor
  · intro h hmem
    have h2 : l.contains x = true := List.elem_iff.mpr hmem
    rw [h2] at h
    exact absurd h (by simp)
  · intro h
    cases hc : l.contains x with
    | false => rfl
    | true => exact absurd (List.elem_iff.mp hc) h

/-- A `some` result of `candRecord` is the record built from the
candidate, and is only produced for candidates missing from the store. -/
theorem candRecord_eq_some (t : List String) (n : Announcement → Nat → Nat → Option String)
    (p : Announcement → String) (ids : List String) (a : Announcement) (r : PostedRecord)
    (h : candRecord t n p ids a = some r) :
    r = ⟨a.id, a.title, p a⟩ ∧ ids.contains a.id = false := by
  unfold candRecord at h
  split at h
  · exact absurd h (by simp)
  · constructor
    · split at h
      · split at h
        · exact (Option.some.inj h).symm
        · exact absurd h (by simp)
      · exact absurd h (by simp)
    · rename_i hc
      exact Bool.not_eq_true _ ▸ hc

/-- A candidate already recorded in the store contributes nothing. -/
theorem candRecord_of_contains (t : List String) (n : Announcement → Nat → Nat → Option String)
    (p : Announcement → String) (ids : List String) (a : Announcement)
    (h : ids.contains a.id = true) :
    candRecord t n p ids a = none := by
  unfold candRecord
  rw [h]
  simp

/-- When the id is unknown and at least one per-target outcome succeeds,
the candidate contributes its record. -/
theorem candRecord_of_success (t : List String) (n : Announcement → Nat → Nat → Option String)
    (p : Announcement → String) (ids : List String) (a : Announcement)
    (hcont : ids.contains a.id = false)
    (hsucc : (dispatchFrom (n a) 0 t).any (fun r => r.success) = true) :
    candRecord t n p ids a = some ⟨a.id, a.title, p a⟩ := by
  have hall : (dispatchFrom (n a) 0 t).all (fun r => !r.success) = false := by
    rcases List.any_eq_true.mp hsucc with ⟨r, hrmem, hrs⟩
    rw [Bool.eq_false_iff]
    intro hall
    have hx := List.all_eq_true.mp hall r hrmem
    rw [hrs] at hx
    simp at hx
  have hm : a.id ∉ ids := (contains_false_iff ids a.id).mp hcont
  have hex : ∃ x ∈ dispatchFrom (n a) 0 t, x.success = true := List.any_eq_true.mp hsucc
  simp [candRecord, postToDiscord, hm, hall, hex]

/-- When every per-target outcome fails (in particular when there are
zero targets), the candidate contributes nothing. -/
theorem candRecord_of_allfail (t : List String) (n : Announcement → Nat → Nat → Option String)
    (p : Announcement → String) (ids : List String) (a : Announcement)
    (hfail : (dispatchFrom (n a) 0 t).all (fun r => !r.success) = true) :
    candRecord t n p ids a = none := by
  unfold candRecord
  cases hcont : ids.contains a.id with
  | true => simp
  | false =>
    cases hres : dispatchFrom (n a) 0 t with
    | nil => simp [postToDiscord, hres]
    | cons r rest =>
      have hanyf : ((r :: rest).any (fun x => x.success)) = false := by
        rw [hres] at hfail
        rw [Bool.eq_false_iff]
        intro hany
        rcases List.any_eq_true.mp hany with ⟨x, hx, hxs⟩
        have hx2 := List.all_eq_true.mp hfail x hx
        rw [hxs] at hx2
        simp at hx2
      rw [hres] at hfail
      simp [postToDiscord, hres, hfail, hanyf]

/-- One outcome is recorded per configured target. -/
theorem dispatchFrom_length (net : Nat → Nat → Option String) (k : Nat) (names : List String) :
    (dispatchFrom net k names).length = names.length := by
  induction names generalizing k with
  | nil => rfl
  | cons a l ih => simp [dispatchFrom, ih]

/-- The candidate loop accumulates exactly the `filterMap` of the
per-candidate contribution, in processing order. -/
theorem processCandidates_fst (t : List String) (n : Announcement → Nat → Nat → Option String)
    (p : Announcement → String) (ids : List String) (l : List Announcement) :
    (processCandidates t n p ids l).1 = l.filterMap (candRecord t n p ids) := by
  induction l with
  | nil => rfl
  | cons a l ih =>
    cases h : ids.contains a.id with
    | true =>
      have hm : a.id ∈ ids := (contains_true_iff ids a.id).mp h
      have hc : candRecord t n p ids a = none := candRecord_of_contains t n p ids a h
      simp [processCandidates, hm, hc, ih]
    | false =>
      have hm : a.id ∉ ids := (contains_false_iff ids a.id).mp h
      cases hc : candRecord t n p ids a with
      | none => simp [processCandidates, hm, hc, ih]
      | some r => simp [processCandidates, hm, hc, ih]

/-- The Dispatcher is invoked once per candidate whose id is not in the
store, and never for known candidates. -/
theorem processCandidates_snd (t : List String) (n : Announcement → Nat → Nat → Option String)
    (p : Announcement → String) (ids : List String) (l : List Announcement) :
    (processCandidates t n p ids l).2 = l.countP (fun a => !(ids.contains a.id)) := by
  induction l with
  | nil => rfl
  | cons a l ih =>
    cases h : ids.contains a.id with
    | true =>
      have hm : a.id ∈ ids := (contains_true_iff ids a.id).mp h
      simp [processCandidates, List.countP_cons, hm, ih]
    | false =>
      have hm : a.id ∉ ids := (contains_false_iff ids a.id).mp h
      cases hc : candRecord t n p ids a with
      | none => simp [processCandidates, List.countP_cons, hm, hc, ih]
      | some r => simp [processCandidates, List.countP_cons, hm, hc, ih]

/-- Normal form of a cycle whose fetch succeeded with a non-empty feed:
the result is determined by the loaded store, the per-candidate
contributions over the reversed (oldest-first) feed, and the count of
unknown candidates. -/
theorem runCycle_ok_eq (t : List String) (n : Announcement → Nat → Nat → Option String)
    (p : Announcement → String) (anns : List Announcement) (disk : Option FileContent)
    (hne : anns ≠ []) :
    runCycle t n p (.ok anns) disk =
      (let store := (loadPosted disk).1
       let succ := anns.reverse.filterMap
         (candRecord t n p (store.map (fun r => r.id)))
       let d := anns.reverse.countP
         (fun a => !((store.map (fun r => r.id)).contains a.id))
       if succ.isEmpty then
         CycleResult.mk (some (.json store)) store d false true false
       else
         CycleResult.mk (some (.json (store ++ succ))) (store ++ succ) d true false true) := by
  have hie : anns.isEmpty = false := by
    cases anns with
    | nil => exact absurd rfl hne
    | cons a l => rfl
  simp only [runCycle, hie, Bool.false_eq_true, if_false, processCandidates_fst,
    processCandidates_snd, loadPosted_snd, savePosted]

/-- After every cycle the disk holds exactly the serialized in-memory
`posted` list. -/
theorem runCycle_disk_eq (t : List String) (n : Announcement → Nat → Nat → Option String)
    (p : Announcement → String) (feed : Except Unit (List Announcement))
    (disk : Option FileContent) :
    (runCycle t n p feed disk).disk = some (.json (runCycle t n p feed disk).posted) := by
  cases feed with
  | error e => simp [runCycle, loadPosted_snd]
  | ok anns =>
    cases hie : anns.isEmpty with
    | true => simp [runCycle, hie, loadPosted_snd]
    | false =>
      simp only [runCycle, hie, Bool.false_eq_true, if_false, loadPosted_snd, savePosted]
      split
      · rfl
      · rfl

/-- No record with id `x` appears among the cycle's new records when
every feed candidate carrying id `x` contributes nothing. -/
theorem not_mem_new_ids (t : List String) (n : Announcement → Nat → Nat → Option String)
    (p : Announcement → String) (ids : List String) (l : List Announcement) (x : String)
    (h : ∀ a ∈ l, a.id = x → candRecord t n p ids a = none) :
    x ∉ (l.filterMap (candRecord t n p ids)).map (fun r => r.id) := by
  intro hx
  rcases List.mem_map.mp hx with ⟨r, hr, hrx⟩
  rcases List.mem_filterMap.mp hr with ⟨a, ha, hsome⟩
  have h1 := (candRecord_eq_some t n p ids a r hsome).1
  have hida : r.id = a.id := by rw [h1]
  have haid : a.id = x := by rw [← hida, hrx]
  rw [h a ha haid] at hsome
  exact absurd hsome (by simp)

/-- Filtering the cycle's new records for an id absent from the feed
yields nothing. -/
theorem filter_new_nil (t : List String) (n : Announcement → Nat → Nat → Option String)
    (p : Announcement → String) (ids : List String) (l : List Announcement) (x : String)
    (hx : x ∉ l.map (fun a => a.id)) :
    (l.filterMap (candRecord t n p ids)).filter (fun r => decide (r.id = x)) = [] := by
  rw [List.filter_eq_nil_iff]
  intro r hr
  rcases List.mem_filterMap.mp hr with ⟨a, ha, hsome⟩
  have h1 := (candRecord_eq_some t n p ids a r hsome).1
  have hida : r.id = a.id := by rw [h1]
  simp only [decide_eq_true_eq]
  rw [hida]
  intro he
  exact hx (List.mem_map.mpr ⟨a, ha, he⟩)

/-- Filtering the cycle's new records for the id of a feed candidate
that contributed record `r` yields exactly `[r]`, provided feed ids are
pairwise distinct. -/
theorem filter_new_single (t : List String) (n : Announcement → Nat → Nat → Option String)
    (p : Announcement → String) (ids : List String) (l : List Announcement)
    (hnd : (l.map (fun a => a.id)).Nodup) (ann : Announcement) (hmem : ann ∈ l)
    (r : PostedRecord) (hr : candRecord t n p ids ann = some r) :
    (l.filterMap (candRecord t n p ids)).filter (fun x => decide (x.id = ann.id)) = [r] := by
  induction l with
  | nil => cases hmem
  | cons a l ih =>
    rw [List.map_cons, List.nodup_cons] at hnd
    obtain ⟨hnotin, hnd2⟩ := hnd
    rcases List.mem_cons.mp hmem with rfl | hmem2
    · have h1 := (candRecord_eq_some t n p ids ann r hr).1
      have hida : r.id = ann.id := by rw [h1]
      simp only [List.filterMap_cons, hr, List.filter_cons, hida, decide_True,
        if_pos, List.cons.injEq]
      exact ⟨trivial, filter_new_nil t n p ids l ann.id hnotin⟩
    · have hne2 : a.id ≠ ann.id := by
        intro he
        exact hnotin (he ▸ List.mem_map.mpr ⟨ann, hmem2, rfl⟩)
      cases hca : candRecord t n p ids a with
      | none =>
        simp only [List.filterMap_cons, hca]
        exact ih hnd2 hmem2
      | some ra =>
        have h1 := (candRecord_eq_some t n p ids a ra hca).1
        have hida : ra.id = a.id := by rw [h1]
        simp only [List.filterMap_cons, hca, List.filter_cons, hida]
        rw [if_neg (by simp [hne2])]
        exact ih hnd2 hmem2

/-- The ids of the records accumulated in one cycle are pairwise
distinct whenever the feed candidates' ids are. -/
theorem new_ids_nodup (t : List String) (n : Announcement → Nat → Nat → Option String)
    (p : Announcement → String) (ids : List String) (l : List Announcement)
    (hnd : (l.map (fun a => a.id)).Nodup) :
    ((l.filterMap (candRecord t n p ids)).map (fun r => r.id)).Nodup := by
  induction l with
  | nil => simp
  | cons a l ih =>
    rw [List.map_cons, List.nodup_cons] at hnd
    obtain ⟨hnotin, hnd2⟩ := hnd
    cases hca : candRecord t n p ids a with
    | none =>
      simp only [List.filterMap_cons, hca]
      exact ih hnd2
    | some r =>
      simp only [List.filterMap_cons, hca, List.map_cons, List.nodup_cons]
      refine ⟨?_, ih hnd2⟩
      have h1 := (candRecord_eq_some t n p ids a r hca).1
      have hida : r.id = a.id := by rw [h1]
      rw [hida]
      exact not_mem_new_ids t n p ids l a.id
        (fun b hb hbid => ((hnotin (List.mem_map.mpr ⟨b, hb, hbid⟩))).elim)

/-- Every record accumulated in a cycle carries an id that was not yet
in the store. -/
theorem new_ids_not_in_store (t : List String) (n : Announcement → Nat → Nat → Option String)
    (p : Announcement → String) (store : List PostedRecord) (l : List Announcement)
    (r : PostedRecord)
    (hr : r ∈ l.filterMap (candRecord t n p (store.map (fun x => x.id)))) :
    r.id ∉ store.map (fun x => x.id) := by
  rcases List.mem_filterMap.mp hr with ⟨a, ha, hsome⟩
  obtain ⟨hreq, hcont⟩ := candRecord_eq_some t n p (store.map (fun x => x.id)) a r hsome
  have hida : r.id = a.id := by rw [hreq]
  rw [hida]
  exact (contains_false_iff (store.map (fun x => x.id)) a.id).mp hcont

/-- One cycle preserves distinctness of stored ids, for any feed
whose candidates (when the fetch succeeded) carry pairwise-distinct ids. -/
theorem runCycle_posted_nodup (t : List String) (n : Announcement → Nat → Nat → Option String)
    (p : Announcement → String) (feed : Except Unit (List Announcement))
    (disk : Option FileContent)
    (hdisk : (((loadPosted disk).1).map (fun r => r.id)).Nodup)
    (hfeed : ∀ anns, feed = Except.ok anns → (anns.map (fun a => a.id)).Nodup) :
    (((runCycle t n p feed disk).posted).map (fun r => r.id)).Nodup := by
  cases feed with
  | error e => simpa [runCycle] using hdisk
  | ok anns =>
    cases hie : anns.isEmpty with
    | true => simpa [runCycle, hie] using hdisk
    | false =>
      have hne : anns ≠ [] := by
        intro h
        rw [h] at hie
        exact absurd hie (by simp)
      rw [runCycle_ok_eq t n p anns disk hne]
      have hrev : (anns.reverse.map (fun a => a.id)).Nodup := by
        rw [List.map_reverse, List.nodup_reverse]
        exact hfeed anns rfl
      simp only []
      split
      · exact hdisk
      · rw [List.map_append, List.nodup_append]
        refine ⟨hdisk, new_ids_nodup t n p _ anns.reverse hrev, ?_⟩
        intro x hx hx2
        rcases List.mem_map.mp hx2 with ⟨r, hr, hrx⟩
        exact (hrx ▸ new_ids_not_in_store t n p _ anns.reverse r hr) hx

/-- The retry loop never makes more attempts than it is allowed. -/
theorem retryTarget_attempts_le (net : Nat → Nat → Option String) (tIdx : Nat) (name : String) :
    ∀ remaining attempt lastError,
      (retryTarget net tIdx name attempt remaining lastError).2 ≤ remaining := by
  intro remaining
  induction remaining with
  | zero => intro attempt lastError; simp [retryTarget]
  | succ k ih =>
    intro attempt lastError
    unfold retryTarget
    cases net tIdx attempt with
    | none => simp
    | some e =>
      simp only []
      have := ih (attempt + 1) (some e)
      omega

/-- The retry loop only consults the oracle on attempt numbers in the
window it is allowed to use. -/
theorem retryTarget_congr (net net2 : Nat → Nat → Option String) (tIdx : Nat) (name : String) :
    ∀ remaining attempt lastError,
      (∀ a, attempt ≤ a → a < attempt + remaining → net2 tIdx a = net tIdx a) →
      retryTarget net2 tIdx name attempt remaining lastError =
        retryTarget net tIdx name attempt remaining lastError := by
  intro remaining
  induction remaining with
  | zero => intro attempt lastError h; rfl
  | succ k ih =>
    intro attempt lastError h
    unfold retryTarget
    rw [h attempt le_rfl (by omega)]
    cases net tIdx attempt with
    | none => rfl
    | some e =>
      simp only []
      rw [ih (attempt + 1) (some e) (fun a h1 h2 => h a (by omega) (by omega))]

/-- A target whose three attempts all fail gets the single outcome
`{success := false, error := last error}` after exactly 3 attempts. -/
theorem tryTarget_allfail (net : Nat → Nat → Option String) (tIdx : Nat) (name : String)
    (e1 e2 e3 : String) (h1 : net tIdx 1 = some e1) (h2 : net tIdx 2 = some e2)
    (h3 : net tIdx 3 = some e3) :
    tryTarget net tIdx name = (⟨false, name, some e3⟩, 3) := by
  unfold tryTarget
  unfold retryTarget
  rw [h1]
  unfold retryTarget
  rw [h2]
  unfold retryTarget
  rw [h3]
  rfl

/-- The per-target loop of `postToDiscord` produces the outcomes of the
targets one by one, each computed from that target alone. -/
theorem dispatchFrom_eq_map (net : Nat → Nat → Option String) :
    ∀ (names : List String) (k : Nat),
      dispatchFrom net k names =
        (names.enumFrom k).map (fun q => (tryTarget net q.1 q.2).1) := by
  intro names
  induction names with
  | nil => intro k; rfl
  | cons a l ih =>
    intro k
    simp [dispatchFrom, List.enumFrom, ih (k + 1)]

/-- Running several cycles in sequence keeps the stored ids pairwise
distinct, provided every successful fetch returns candidates with
pairwise-distinct ids. -/
theorem runCycles_nodup (inputs : List CycleInput) :
    ∀ store : List PostedRecord,
      (store.map (fun r => r.id)).Nodup →
      (∀ c ∈ inputs, ∀ anns, c.feed = Except.ok anns →
        (anns.map (fun a => a.id)).Nodup) →
      ∃ rs : List PostedRecord,
        runCycles inputs (some (.json store)) = some (.json rs) ∧
          (rs.map (fun r => r.id)).Nodup := by
  induction inputs with
  | nil =>
    intro store hdisk _
    exact ⟨store, rfl, hdisk⟩
  | cons c rest ih =>
    intro store hdisk hfeeds
    have hload : ((loadPosted (some (.json store))).1) = store := rfl
    have hstep := runCycle_posted_nodup c.targets c.net c.postedAtOf c.feed
      (some (.json store)) (by rw [hload]; exact hdisk)
      (fun anns h => hfeeds c (List.mem_cons_self c rest) anns h)
    have hdiskeq := runCycle_disk_eq c.targets c.net c.postedAtOf c.feed (some (.json store))
    have hrest := ih (runCycle c.targets c.net c.postedAtOf c.feed (some (.json store))).posted
      hstep (fun d hd anns h => hfeeds d (List.mem_cons_of_mem c hd) anns h)
    rcases hrest with ⟨rs, hrun, hnd⟩
    refine ⟨rs, ?_, hnd⟩
    rw [runCycles, hdiskeq]
    exact hrun

/-! ### The claims -/

/-- Claim C1: for every announcement processed in a cycle whose id is
not already in the store, if the Dispatcher reports success for at
least one target, then after the cycle the store contains exactly one
new `PostedRecord` with that announcement's id — carrying its title and
a confirmation timestamp — and that record is persisted by the cycle's
save (the final file holds exactly the final list). -/
theorem success_at_least_one_persisted (targets : List String)
    (net : Announcement → Nat → Nat → Option String) (postedAtOf : Announcement → String)
    (store : List PostedRecord) (anns : List Announcement)
    (hnd : (anns.map (fun a => a.id)).Nodup)
    (ann : Announcement) (hmem : ann ∈ anns)
    (hnew : ann.id ∉ store.map (fun r => r.id))
    (hsucc : (dispatchFrom (net ann) 0 targets).any (fun r => r.success) = true) :
    (runCycle targets net postedAtOf (Except.ok anns) (some (.json store))).posted.filter
        (fun r => decide (r.id = ann.id)) = [⟨ann.id, ann.title, postedAtOf ann⟩] ∧
    (runCycle targets net postedAtOf (Except.ok anns) (some (.json store))).saved = true ∧
    (runCycle targets net postedAtOf (Except.ok anns) (some (.json store))).disk =
      some (.json
        (runCycle targets net postedAtOf (Except.ok anns) (some (.json store))).posted) := by
  have hne : anns ≠ [] := List.ne_nil_of_mem hmem
  have hcont : (store.map (fun r => r.id)).contains ann.id = false :=
    (contains_false_iff _ _).mpr hnew
  have hcr := candRecord_of_success targets net postedAtOf
    (store.map (fun r => r.id)) ann hcont hsucc
  have hmemrev : ann ∈ anns.reverse := List.mem_reverse.mpr hmem
  have hndrev : (anns.reverse.map (fun a => a.id)).Nodup := by
    rw [List.map_reverse, List.nodup_reverse]
    exact hnd
  have hrecmem : (⟨ann.id, ann.title, postedAtOf ann⟩ : PostedRecord) ∈
      anns.reverse.filterMap (candRecord targets net postedAtOf
        (store.map (fun r => r.id))) :=
    List.mem_filterMap.mpr ⟨ann, hmemrev, hcr⟩
  have hsne : (anns.reverse.filterMap (candRecord targets net postedAtOf
      (store.map (fun r => r.id)))).isEmpty = false := by
    cases hsuccl : anns.reverse.filterMap (candRecord targets net postedAtOf
        (store.map (fun r => r.id))) with
    | nil => rw [hsuccl] at hrecmem; cases hrecmem
    | cons a l => rfl
  have hrc : runCycle targets net postedAtOf (Except.ok anns) (some (.json store)) =
      CycleResult.mk
        (some (.json (store ++ anns.reverse.filterMap (candRecord targets net postedAtOf
          (store.map (fun r => r.id))))))
        (store ++ anns.reverse.filterMap (candRecord targets net postedAtOf
          (store.map (fun r => r.id))))
        (anns.reverse.countP (fun a => !((store.map (fun r => r.id)).contains a.id)))
        true false true := by
    rw [runCycle_ok_eq targets net postedAtOf anns (some (.json store)) hne]
    simp only [loadPosted, hsne, Bool.false_eq_true, if_false]
  rw [hrc]
  refine ⟨?_, rfl, rfl⟩
  have hstore : store.filter (fun r => decide (r.id = ann.id)) = [] := by
    rw [List.filter_eq_nil_iff]
    intro r hrmem
    simp only [decide_eq_true_eq]
    intro he
    exact hnew (List.mem_map.mpr ⟨r, hrmem, he⟩)
  show (store ++ _).filter _ = _
  rw [List.filter_append, hstore,
    filter_new_single targets net postedAtOf (store.map (fun r => r.id)) anns.reverse
      hndrev ann hmemrev _ hcr]
  rfl

/-- Witness for C1: one unknown announcement, one target, network up;
the record lands in the store and is saved. -/
theorem success_at_least_one_persisted_witness :
    (runCycle ["Server 1"] (fun _ _ _ => none) (fun _ => "2024-01-01T00:00:00.000Z")
        (Except.ok [⟨"guid-1", "Title 1", "Mon", "https://x"⟩])
        (some (.json []))).posted.filter
        (fun r => decide (r.id = "guid-1")) =
      [⟨"guid-1", "Title 1", "2024-01-01T00:00:00.000Z"⟩] ∧
    (runCycle ["Server 1"] (fun _ _ _ => none) (fun _ => "2024-01-01T00:00:00.000Z")
        (Except.ok [⟨"guid-1", "Title 1", "Mon", "https://x"⟩])
        (some (.json []))).saved = true ∧
    (runCycle ["Server 1"] (fun _ _ _ => none) (fun _ => "2024-01-01T00:00:00.000Z")
        (Except.ok [⟨"guid-1", "Title 1", "Mon", "https://x"⟩])
        (some (.json []))).disk =
      some (.json (runCycle ["Server 1"] (fun _ _ _ => none)
        (fun _ => "2024-01-01T00:00:00.000Z")
        (Except.ok [⟨"guid-1", "Title 1", "Mon", "https://x"⟩])
        (some (.json []))).posted) :=
  success_at_least_one_persisted ["Server 1"] (fun _ _ _ => none)
    (fun _ => "2024-01-01T00:00:00.000Z") []
    [⟨"guid-1", "Title 1", "Mon", "https://x"⟩] (by decide)
    ⟨"guid-1", "Title 1", "Mon", "https://x"⟩ (by decide) (by decide) (by decide)

/-- Claim C2: an announcement all of whose target outcomes fail is
absent from the store after the cycle (its id appears in no saved
record), and its failure does not prevent records for other
announcements confirmed in the same cycle from being persisted. -/
theorem allfail_not_persisted (targets : List String)
    (net : Announcement → Nat → Nat → Option String) (postedAtOf : Announcement → String)
    (store : List PostedRecord) (anns : List Announcement)
    (hnd : (anns.map (fun a => a.id)).Nodup)
    (ann : Announcement) (hmem : ann ∈ anns)
    (hnew : ann.id ∉ store.map (fun r => r.id))
    (hfail : (dispatchFrom (net ann) 0 targets).all (fun r => !r.success) = true) :
    ann.id ∉ ((runCycle targets net postedAtOf (Except.ok anns)
        (some (.json store))).posted.map (fun r => r.id)) ∧
    ∀ ann2 ∈ anns, ann2.id ∉ store.map (fun r => r.id) →
      (dispatchFrom (net ann2) 0 targets).any (fun r => r.success) = true →
      ((⟨ann2.id, ann2.title, postedAtOf ann2⟩ : PostedRecord) ∈
          (runCycle targets net postedAtOf (Except.ok anns) (some (.json store))).posted ∧
        (runCycle targets net postedAtOf (Except.ok anns) (some (.json store))).saved
          = true) := by
  have hne : anns ≠ [] := List.ne_nil_of_mem hmem
  have hcrnone : candRecord targets net postedAtOf (store.map (fun r => r.id)) ann = none :=
    candRecord_of_allfail targets net postedAtOf (store.map (fun r => r.id)) ann hfail
  have hnotnew : ann.id ∉ ((anns.reverse.filterMap (candRecord targets net postedAtOf
      (store.map (fun r => r.id)))).map (fun r => r.id)) := by
    apply not_mem_new_ids
    intro a ha hida
    have haa : a = ann :=
      List.inj_on_of_nodup_map hnd (List.mem_reverse.mp ha) hmem hida
    rw [haa]
    exact hcrnone
  rw [runCycle_ok_eq targets net postedAtOf anns (some (.json store)) hne]
  simp only [loadPosted]
  cases hse : (anns.reverse.filterMap (candRecord targets net postedAtOf
      (store.map (fun r => r.id)))).isEmpty with
  | true =>
    have hsnil : anns.reverse.filterMap (candRecord targets net postedAtOf
        (store.map (fun r => r.id))) = [] := List.isEmpty_iff.mp hse
    simp only [hse, if_true]
    constructor
    · exact hnew
    · intro ann2 hmem2 hnew2 hsucc2
      have hcont2 : (store.map (fun r => r.id)).contains ann2.id = false :=
        (contains_false_iff _ _).mpr hnew2
      have hcr2 := candRecord_of_success targets net postedAtOf
        (store.map (fun r => r.id)) ann2 hcont2 hsucc2
      have hmem2rev : ann2 ∈ anns.reverse := List.mem_reverse.mpr hmem2
      have : (⟨ann2.id, ann2.title, postedAtOf ann2⟩ : PostedRecord) ∈
          anns.reverse.filterMap (candRecord targets net postedAtOf
            (store.map (fun r => r.id))) :=
        List.mem_filterMap.mpr ⟨ann2, hmem2rev, hcr2⟩
      rw [hsnil] at this
      cases this
  | false =>
    simp only [hse, Bool.false_eq_true, if_false]
    constructor
    · rw [List.map_append]
      intro hcontr
      rcases List.mem_append.mp hcontr with h | h
      · exact hnew h
      · exact hnotnew h
    · intro ann2 hmem2 hnew2 hsucc2
      have hcont2 : (store.map (fun r => r.id)).contains ann2.id = false :=
        (contains_false_iff _ _).mpr hnew2
      have hcr2 := candRecord_of_success targets net postedAtOf
        (store.map (fun r => r.id)) ann2 hcont2 hsucc2
      have hmem2rev : ann2 ∈ anns.reverse := List.mem_reverse.mpr hmem2
      exact ⟨List.mem_append_right _ (List.mem_filterMap.mpr ⟨ann2, hmem2rev, hcr2⟩), trivial⟩

/-- Witness for C2: two unknown announcements, one target; delivery of
`guid-1` fails three times while `guid-2` succeeds, so `guid-1` stays
out of the store and `guid-2` is persisted. -/
theorem allfail_not_persisted_witness :
    ("guid-1" : String) ∉ ((runCycle ["Server 1"]
        (fun a _ _ => if a.id = "guid-1" then some "timeout" else none)
        (fun _ => "2024-01-01T00:00:00.000Z")
        (Except.ok [⟨"guid-2", "Title 2", "Tue", "https://y"⟩,
          ⟨"guid-1", "Title 1", "Mon", "https://x"⟩])
        (some (.json []))).posted.map (fun r => r.id)) :=
  (allfail_not_persisted ["Server 1"]
    (fun a _ _ => if a.id = "guid-1" then some "timeout" else none)
    (fun _ => "2024-01-01T00:00:00.000Z") []
    [⟨"guid-2", "Title 2", "Tue", "https://y"⟩, ⟨"guid-1", "Title 1", "Mon", "https://x"⟩]
    (by decide) ⟨"guid-1", "Title 1", "Mon", "https://x"⟩
    (by decide) (by decide) (by decide)).1

/-- Claim C3: the loop iterates candidates oldest-first (the reverse of
the feed-returned order): with feed result `[c3(newest), c2, c1(oldest)]`,
all unknown to the store and all delivered, the cycle appends the new
records in the order `c1, c2, c3`. -/
theorem chronological_insertion (targets : List String)
    (net : Announcement → Nat → Nat → Option String) (postedAtOf : Announcement → String)
    (store : List PostedRecord) (c1 c2 c3 : Announcement)
    (h1 : c1.id ∉ store.map (fun r => r.id))
    (h2 : c2.id ∉ store.map (fun r => r.id))
    (h3 : c3.id ∉ store.map (fun r => r.id))
    (hs1 : (dispatchFrom (net c1) 0 targets).any (fun r => r.success) = true)
    (hs2 : (dispatchFrom (net c2) 0 targets).any (fun r => r.success) = true)
    (hs3 : (dispatchFrom (net c3) 0 targets).any (fun r => r.success) = true) :
    (runCycle targets net postedAtOf (Except.ok [c3, c2, c1]) (some (.json store))).posted =
      store ++ [⟨c1.id, c1.title, postedAtOf c1⟩, ⟨c2.id, c2.title, postedAtOf c2⟩,
        ⟨c3.id, c3.title, postedAtOf c3⟩] := by
  have hne : ([c3, c2, c1] : List Announcement) ≠ [] := by simp
  have e1 := candRecord_of_success targets net postedAtOf (store.map (fun r => r.id)) c1
    ((contains_false_iff _ _).mpr h1) hs1
  have e2 := candRecord_of_success targets net postedAtOf (store.map (fun r => r.id)) c2
    ((contains_false_iff _ _).mpr h2) hs2
  have e3 := candRecord_of_success targets net postedAtOf (store.map (fun r => r.id)) c3
    ((contains_false_iff _ _).mpr h3) hs3
  rw [runCycle_ok_eq targets net postedAtOf [c3, c2, c1] (some (.json store)) hne]
  have hrev : ([c3, c2, c1] : List Announcement).reverse = [c1, c2, c3] := rfl
  simp only [loadPosted, hrev, List.filterMap_cons, List.filterMap_nil, e1, e2, e3,
    List.isEmpty_cons, Bool.false_eq_true, if_false]

/-- Witness for C3: three fresh announcements arriving newest-first are
recorded oldest-first. -/
theorem chronological_insertion_witness :
    (runCycle ["Server 1"] (fun _ _ _ => none) (fun _ => "T")
        (Except.ok [⟨"g3", "New", "Wed", "l3"⟩, ⟨"g2", "Mid", "Tue", "l2"⟩,
          ⟨"g1", "Old", "Mon", "l1"⟩])
        (some (.json []))).posted =
      [] ++ [⟨"g1", "Old", "T"⟩, ⟨"g2", "Mid", "T"⟩, ⟨"g3", "New", "T"⟩] :=
  chronological_insertion ["Server 1"] (fun _ _ _ => none) (fun _ => "T") []
    ⟨"g1", "Old", "Mon", "l1"⟩ ⟨"g2", "Mid", "Tue", "l2"⟩ ⟨"g3", "New", "Wed", "l3"⟩
    (by decide) (by decide) (by decide) (by decide) (by decide) (by decide)

/-- Counterexample to C4 as stated: when one cycle's feed result itself
contains two candidates with the same id, both pass the `postedIds`
check (the set is built once, before the loop, and never updated inside
it), so the cycle appends two records with the same id. -/
theorem no_duplicate_ids_counterexample :
    ¬ ((((runCycle ["Server 1"] (fun _ _ _ => none) (fun _ => "T")
        (Except.ok [⟨"dup", "Title", "Mon", "https://x"⟩,
          ⟨"dup", "Title", "Mon", "https://x"⟩])
        (some (.json []))).posted).map (fun r => r.id)).Nodup) := by
  decide

/-- Claim C4, amended: for all sequences of cycles starting from a store
with pairwise-distinct ids, the store never contains two records with
the same id — provided every successful fetch returns candidates with
pairwise-distinct ids (the code does not deduplicate inside one feed
result). -/
theorem no_duplicate_ids_amended (inputs : List CycleInput) (store : List PostedRecord)
    (hstore : (store.map (fun r => r.id)).Nodup)
    (hfeeds : ∀ c ∈ inputs, ∀ anns, c.feed = Except.ok anns →
      (anns.map (fun a => a.id)).Nodup) :
    ∃ rs : List PostedRecord,
      runCycles inputs (some (.json store)) = some (.json rs) ∧
        (rs.map (fun r => r.id)).Nodup :=
  runCycles_nodup inputs store hstore hfeeds

/-- Witness for the amended C4: one cycle with one fresh announcement
keeps stored ids pairwise distinct. -/
theorem no_duplicate_ids_amended_witness :
    ∃ rs : List PostedRecord,
      runCycles [⟨["Server 1"], fun _ _ _ => none, fun _ => "T",
          Except.ok [⟨"w4", "Title", "Mon", "https://x"⟩]⟩] (some (.json [])) =
        some (.json rs) ∧ (rs.map (fun r => r.id)).Nodup :=
  no_duplicate_ids_amended
    [⟨["Server 1"], fun _ _ _ => none, fun _ => "T",
      Except.ok [⟨"w4", "Title", "Mon", "https://x"⟩]⟩] [] (by decide)
    (by
      intro c hc anns h
      rcases List.mem_cons.mp hc with rfl | h0
      · injection h with h2
        rw [← h2]
        decide
      · cases h0)

/-- Claim C5: running the loop when the store already contains every
feed id performs zero Dispatcher invocations and leaves the store
unchanged — nothing is appended and the state file still holds exactly
the prior records. -/
theorem reconciliation_idempotent (targets : List String)
    (net : Announcement → Nat → Nat → Option String) (postedAtOf : Announcement → String)
    (store : List PostedRecord) (anns : List Announcement)
    (hknown : ∀ a ∈ anns, a.id ∈ store.map (fun r => r.id)) :
    (runCycle targets net postedAtOf (Except.ok anns) (some (.json store))).dispatches = 0 ∧
    (runCycle targets net postedAtOf (Except.ok anns) (some (.json store))).posted = store ∧
    (runCycle targets net postedAtOf (Except.ok anns) (some (.json store))).saved = false ∧
    (runCycle targets net postedAtOf (Except.ok anns) (some (.json store))).disk =
      some (.json store) := by
  by_cases hne : anns = []
  · subst hne
    exact ⟨rfl, rfl, rfl, rfl⟩
  · have hsuccnil : anns.reverse.filterMap (candRecord targets net postedAtOf
        (store.map (fun r => r.id))) = [] := by
      rw [List.filterMap_eq_nil_iff]
      intro a ha
      exact candRecord_of_contains targets net postedAtOf (store.map (fun r => r.id)) a
        ((contains_true_iff _ _).mpr (hknown a (List.mem_reverse.mp ha)))
    have hd0 : anns.reverse.countP (fun a =>
        !((store.map (fun r => r.id)).contains a.id)) = 0 := by
      rw [List.countP_eq_zero]
      intro a ha
      rw [(contains_true_iff _ _).mpr (hknown a (List.mem_reverse.mp ha))]
      simp
    rw [runCycle_ok_eq targets net postedAtOf anns (some (.json store)) hne]
    simp only [loadPosted, hsuccnil, hd0, List.isEmpty_nil, if_true]
    simp

/-- Witness for C5: a feed whose only candidate is already recorded
causes no dispatch and no store change. -/
theorem reconciliation_idempotent_witness :
    (runCycle ["Server 1"] (fun _ _ _ => none) (fun _ => "T")
        (Except.ok [⟨"k1", "Title", "Mon", "l"⟩])
        (some (.json [⟨"k1", "Title", "T0"⟩]))).dispatches = 0 ∧
    (runCycle ["Server 1"] (fun _ _ _ => none) (fun _ => "T")
        (Except.ok [⟨"k1", "Title", "Mon", "l"⟩])
        (some (.json [⟨"k1", "Title", "T0"⟩]))).posted = [⟨"k1", "Title", "T0"⟩] ∧
    (runCycle ["Server 1"] (fun _ _ _ => none) (fun _ => "T")
        (Except.ok [⟨"k1", "Title", "Mon", "l"⟩])
        (some (.json [⟨"k1", "Title", "T0"⟩]))).saved = false ∧
    (runCycle ["Server 1"] (fun _ _ _ => none) (fun _ => "T")
        (Except.ok [⟨"k1", "Title", "Mon", "l"⟩])
        (some (.json [⟨"k1", "Title", "T0"⟩]))).disk =
      some (.json [⟨"k1", "Title", "T0"⟩]) :=
  reconciliation_idempotent ["Server 1"] (fun _ _ _ => none) (fun _ => "T")
    [⟨"k1", "Title", "T0"⟩] [⟨"k1", "Title", "Mon", "l"⟩] (by decide)

/-- Claim C6: a target whose 3 attempts all fail yields exactly one
failure outcome carrying the last error message after exactly 3
attempts; the outcome never depends on any 4th-or-later attempt of the
oracle; and the per-target loop emits one outcome per target, each
computed from its own target alone, so one target's exhaustion never
blocks the others. -/
theorem retry_ceiling (net : Nat → Nat → Option String) (tIdx : Nat) (name : String)
    (e1 e2 e3 : String) (h1 : net tIdx 1 = some e1) (h2 : net tIdx 2 = some e2)
    (h3 : net tIdx 3 = some e3) (names : List String) :
    (tryTarget net tIdx name).2 ≤ 3 ∧
    tryTarget net tIdx name = (⟨false, name, some e3⟩, 3) ∧
    (∀ net2 : Nat → Nat → Option String,
      (∀ a, 1 ≤ a → a ≤ 3 → net2 tIdx a = net tIdx a) →
      tryTarget net2 tIdx name = tryTarget net tIdx name) ∧
    dispatchFrom net 0 names =
      (names.enumFrom 0).map (fun q => (tryTarget net q.1 q.2).1) := by
  refine ⟨retryTarget_attempts_le net tIdx name 3 1 none,
    tryTarget_allfail net tIdx name e1 e2 e3 h1 h2 h3, ?_,
    dispatchFrom_eq_map net names 0⟩
  intro net2 hagree
  exact retryTarget_congr net net2 tIdx name 3 1 none
    (fun a ha1 ha2 => hagree a ha1 (by omega))

/-- Witness for C6: an oracle that always fails; one target named
"Server 1". -/
theorem retry_ceiling_witness :
    (tryTarget (fun _ _ => some "err") 0 "Server 1").2 ≤ 3 ∧
    tryTarget (fun _ _ => some "err") 0 "Server 1" =
      (⟨false, "Server 1", some "err"⟩, 3) ∧
    (∀ net2 : Nat → Nat → Option String,
      (∀ a, 1 ≤ a → a ≤ 3 → net2 0 a = (fun _ _ => some "err") 0 a) →
      tryTarget net2 0 "Server 1" = tryTarget (fun _ _ => some "err") 0 "Server 1") ∧
    dispatchFrom (fun _ _ => some "err") 0 ["Server 1"] =
      ((["Server 1"] : List String).enumFrom 0).map
        (fun q => (tryTarget (fun _ _ => some "err") q.1 q.2).1) :=
  retry_ceiling (fun _ _ => some "err") 0 "Server 1" "err" "err" "err" rfl rfl rfl
    ["Server 1"]

/-- Counterexample to C7 as stated: with the state file absent, a cycle
whose fetch fails still changes the durable state — `loadPosted` runs
before the fetch and creates an empty database file, so the disk is no
longer in the "file absent" state. -/
theorem fetch_failure_counterexample :
    (runCycle [] (fun _ _ _ => none) (fun _ => "T") (Except.error ()) none).disk ≠ none := by
  decide

/-- Claim C7, amended: a fetch failure leaves the durable state file
byte-for-byte unchanged for every prior on-disk state that is a
readable, valid file; an absent or corrupt file is rewritten as an
empty database by the pre-fetch `loadPosted`, not left untouched. -/
theorem fetch_failure_isolation (targets : List String)
    (net : Announcement → Nat → Nat → Option String) (postedAtOf : Announcement → String)
    (rs : List PostedRecord) :
    runCycle targets net postedAtOf (Except.error ()) (some (.json rs)) =
      CycleResult.mk (some (.json rs)) rs 0 false false false := rfl

/-- Claim C8: a corrupt (unreadable/malformed) state file makes `load`
return an empty sequence and immediately rewrite the file as an empty,
valid database; the same holds for an absent file; a subsequent `load`
then succeeds on the rewritten file; and a cycle started on a corrupt
file treats every feed candidate as new (one Dispatcher invocation per
candidate). -/
theorem corrupt_state_recovery (s : String) (targets : List String)
    (net : Announcement → Nat → Nat → Option String) (postedAtOf : Announcement → String)
    (anns : List Announcement) :
    loadPosted (some (.garbage s)) = ([], some (.json [])) ∧
    loadPosted none = ([], some (.json [])) ∧
    loadPosted (some (.json [])) = ([], some (.json [])) ∧
    (runCycle targets net postedAtOf (Except.ok anns) (some (.garbage s))).dispatches =
      anns.length := by
  refine ⟨rfl, rfl, rfl, ?_⟩
  by_cases hne : anns = []
  · subst hne
    rfl
  · rw [runCycle_ok_eq targets net postedAtOf anns (some (.garbage s)) hne]
    have hd : anns.reverse.countP (fun a =>
        !((([] : List PostedRecord).map (fun r => r.id)).contains a.id)) = anns.length := by
      have h1 : anns.reverse.countP (fun a =>
          !((([] : List PostedRecord).map (fun r => r.id)).contains a.id)) =
          anns.reverse.length :=
        List.countP_eq_length.mpr (fun a _ => rfl)
      rw [h1]
      exact List.length_reverse anns
    simp only [loadPosted]
    split
    · exact hd
    · exact hd

/-- Counterexample to C9 as stated: with a successful fetch returning
zero candidates, `main` returns immediately (line 358) and never reaches
the time-gated `syncIfNeeded` periodic-backup check. -/
theorem empty_feed_counterexample :
    ¬ ((runCycle [] (fun _ _ _ => none) (fun _ => "T") (Except.ok [])
        (some (.json []))).syncIfNeededCalled = true) := by
  decide

/-- Claim C9, amended: when the fetch succeeds with zero candidates the
cycle logs and ends immediately, without performing the time-gated
periodic-backup check and without mutating the store. -/
theorem empty_feed_behavior (targets : List String)
    (net : Announcement → Nat → Nat → Option String) (postedAtOf : Announcement → String)
    (rs : List PostedRecord) :
    runCycle targets net postedAtOf (Except.ok []) (some (.json rs)) =
      CycleResult.mk (some (.json rs)) rs 0 false false false := rfl

/-- With zero configured delivery targets every candidate contributes
nothing: `postToDiscord` returns an empty outcome list, no outcome has
`success = true`, so no record is pushed. -/
theorem candRecord_no_targets (net : Announcement → Nat → Nat → Option String)
    (postedAtOf : Announcement → String) (ids : List String) (a : Announcement) :
    candRecord [] net postedAtOf ids a = none := by
  unfold candRecord
  cases hc : ids.contains a.id with
  | true => simp
  | false => simp [postToDiscord, dispatchFrom]

/-- Claim C10: the Dispatcher raises iff the target list is non-empty
and every per-target outcome failed; with zero targets it returns an
empty outcome list without raising, the announcement counts as not
delivered, and no cycle ever appends anything to the store. -/
theorem dispatcher_error_iff_zero_targets (net : Nat → Nat → Option String)
    (names : List String) (net2 : Announcement → Nat → Nat → Option String)
    (postedAtOf : Announcement → String) (feed : Except Unit (List Announcement))
    (disk : Option FileContent) :
    ((∃ e, postToDiscord net names = Except.error e) ↔
      (names ≠ [] ∧ (dispatchFrom net 0 names).all (fun r => !r.success) = true)) ∧
    postToDiscord net [] = Except.ok [] ∧
    (runCycle [] net2 postedAtOf feed disk).posted = (loadPosted disk).1 ∧
    (runCycle [] net2 postedAtOf feed disk).saved = false := by
  have hzero : ∀ (f : Except Unit (List Announcement)),
      (runCycle [] net2 postedAtOf f disk).posted = (loadPosted disk).1 ∧
        (runCycle [] net2 postedAtOf f disk).saved = false := by
    intro f
    cases f with
    | error e => exact ⟨rfl, rfl⟩
    | ok anns =>
      by_cases hne : anns = []
      · subst hne
        exact ⟨rfl, rfl⟩
      · have hnil : anns.reverse.filterMap (candRecord [] net2 postedAtOf
            (((loadPosted disk).1).map (fun r => r.id))) = [] :=
          List.filterMap_eq_nil_iff.mpr
            (fun a _ => candRecord_no_targets net2 postedAtOf _ a)
        rw [runCycle_ok_eq [] net2 postedAtOf anns disk hne]
        simp [hnil]
  refine ⟨?_, rfl, (hzero feed).1, (hzero feed).2⟩
  constructor
  · intro ⟨e, he⟩
    unfold postToDiscord at he
    by_cases hcond : (!(dispatchFrom net 0 names).isEmpty &&
        (dispatchFrom net 0 names).all (fun r => !r.success)) = true
    · obtain ⟨hnemp, hall⟩ := Bool.and_eq_true_iff.mp hcond
      refine ⟨?_, hall⟩
      intro hnames
      subst hnames
      simp [dispatchFrom] at hnemp
    · rw [if_neg hcond] at he
      exact absurd he (by simp)
  · intro ⟨hnames, hall⟩
    have hlen : (dispatchFrom net 0 names).length = names.length :=
      dispatchFrom_length net 0 names
    have hnemp : (dispatchFrom net 0 names).isEmpty = false := by
      cases hd : dispatchFrom net 0 names with
      | nil =>
        rw [hd] at hlen
        exact absurd (List.length_eq_zero.mp hlen.symm) hnames
      | cons a l => rfl
    refine ⟨"Failed to post to all Discord webhooks after multiple retries", ?_⟩
    unfold postToDiscord
    rw [if_pos (by rw [hnemp, hall]; rfl)]
